import Mathlib

/-!
# Verification of the gpac `reframer` filter (src/filters/reframer.c)

Shallow embedding of the parts of the reframer filter that the verified
properties talk about: the range-boundary clock-time branch of
`reframer_parse_date`, the frame allow-list gate and timestamp rewrite of
`reframer_send_packet`, the packet/range classifier `reframer_check_pck_range`,
the raw-audio splitting helper `reframer_copy_raw_audio` and its two call
sites, the size-split rounding decision and the cut-point selection of
`check_gop_split`, the real-time pacing gate, and the per-stream
cross-range timestamp continuity of `reframer_process`.

Machine integers (u32/u64/s64) are modelled as `Nat`/`Int`; the single place
where a wrap-around cast is observable (the u64 cast of a possibly negative
s64 decoding timestamp) is modelled explicitly with `Int.emod (2^64)`.
`GF_FILTER_NO_TS` sentinels are modelled as `Option.none`.
-/

namespace Reframer

/-- `#define RT_PRECISION_US 2000` -/
def RT_PRECISION_US : Nat := 2000

/-- `RANGE_NONE` -/
def RANGE_NONE : Nat := 0
/-- `RANGE_CLOSED` -/
def RANGE_CLOSED : Nat := 1
/-- `RANGE_OPEN` -/
def RANGE_OPEN : Nat := 2
/-- `RANGE_DONE` -/
def RANGE_DONE : Nat := 3

/-- `REFRAME_ROUND_BEFORE` -/
def REFRAME_ROUND_BEFORE : Nat := 0
/-- `REFRAME_ROUND_AFTER` -/
def REFRAME_ROUND_AFTER : Nat := 1
/-- `REFRAME_ROUND_CLOSEST` -/
def REFRAME_ROUND_CLOSEST : Nat := 2

/-! ## Range descriptor: the clock-time branch of `reframer_parse_date` -/

/-- Greedy digit scan, the core of an `sscanf` `%u` conversion
(inputs are plain ASCII digit strings). -/
def scan_digits : List Char → Nat → Nat × List Char
  | [], acc => (acc, [])
  | c :: rest, acc =>
    if c.isDigit then scan_digits rest (acc * 10 + (c.toNat - 48))
    else (acc, c :: rest)

/-- One `%u` conversion: fails when no leading digit is present. -/
def scan_uint (l : List Char) : Option (Nat × List Char) :=
  match l with
  | [] => none
  | c :: _ => if c.isDigit then some (scan_digits l 0) else none

/-- A literal separator character in an `sscanf` format. -/
def scan_sep (c : Char) (l : List Char) : Option (List Char) :=
  match l with
  | [] => none
  | x :: rest => if x = c then some rest else none

/-- A separator followed by a `%u` conversion. -/
def scan_sep_uint (c : Char) (l : List Char) : Option (Nat × List Char) :=
  match scan_sep c l with
  | none => none
  | some rest => scan_uint rest

/-- The four stack variables `u32 h=0, m=0, s=0, ms=0;` of
`reframer_parse_date` (reframer.c line 312). Each `sscanf` call writes
only the fields whose conversions succeed; a value assigned by an earlier,
partially matching pattern persists into the fallback attempts. -/
structure ClockFields where
  h : Nat
  m : Nat
  s : Nat
  ms : Nat
deriving DecidableEq

/-- `sscanf(date, "T%u:%u:%u.%u", &h, &m, &s, &ms)` with C assignment
semantics: returns the number of successful conversions together with the
updated fields — conversions completed before the first mismatch keep
their assignments. -/
def scan_T_hms_ms (f : ClockFields) (l : List Char) : Nat × ClockFields :=
  match scan_sep 'T' l with
  | none => (0, f)
  | some l0 =>
    match scan_uint l0 with
    | none => (0, f)
    | some (h, l1) =>
      let f1 := { f with h := h }
      match scan_sep_uint ':' l1 with
      | none => (1, f1)
      | some (m, l2) =>
        let f2 := { f1 with m := m }
        match scan_sep_uint ':' l2 with
        | none => (2, f2)
        | some (s, l3) =>
          let f3 := { f2 with s := s }
          match scan_sep_uint '.' l3 with
          | none => (3, f3)
          | some (ms, _) => (4, { f3 with ms := ms })

/-- `sscanf(date, "T%u:%u.%u", &m, &s, &ms)`, same assignment semantics. -/
def scan_T_ms_ms (f : ClockFields) (l : List Char) : Nat × ClockFields :=
  match scan_sep 'T' l with
  | none => (0, f)
  | some l0 =>
    match scan_uint l0 with
    | none => (0, f)
    | some (m, l1) =>
      let f1 := { f with m := m }
      match scan_sep_uint ':' l1 with
      | none => (1, f1)
      | some (s, l2) =>
        let f2 := { f1 with s := s }
        match scan_sep_uint '.' l2 with
        | none => (2, f2)
        | some (ms, _) => (3, { f2 with ms := ms })

/-- `sscanf(date, "T%u.%u", &s, &ms)`, same assignment semantics. -/
def scan_T_s_ms (f : ClockFields) (l : List Char) : Nat × ClockFields :=
  match scan_sep 'T' l with
  | none => (0, f)
  | some l0 =>
    match scan_uint l0 with
    | none => (0, f)
    | some (s, l1) =>
      let f1 := { f with s := s }
      match scan_sep_uint '.' l1 with
      | none => (1, f1)
      | some (ms, _) => (2, { f1 with ms := ms })

/-- `sscanf(date, "T%u:%u:%u", &h, &m, &s)`, same assignment semantics. -/
def scan_T_hms (f : ClockFields) (l : List Char) : Nat × ClockFields :=
  match scan_sep 'T' l with
  | none => (0, f)
  | some l0 =>
    match scan_uint l0 with
    | none => (0, f)
    | some (h, l1) =>
      let f1 := { f with h := h }
      match scan_sep_uint ':' l1 with
      | none => (1, f1)
      | some (m, l2) =>
        let f2 := { f1 with m := m }
        match scan_sep_uint ':' l2 with
        | none => (2, f2)
        | some (s, _) => (3, { f2 with s := s })

/-- `sscanf(date, "T%u:%u", &m, &s)`, same assignment semantics. -/
def scan_T_m_s (f : ClockFields) (l : List Char) : Nat × ClockFields :=
  match scan_sep 'T' l with
  | none => (0, f)
  | some l0 =>
    match scan_uint l0 with
    | none => (0, f)
    | some (m, l1) =>
      let f1 := { f with m := m }
      match scan_sep_uint ':' l1 with
      | none => (1, f1)
      | some (s, _) => (2, { f1 with s := s })

/-- `if (ms>=1000) ms=0;` (reframer.c line 321). -/
def clock_ms_adjust (ms : Nat) : Nat := if 1000 ≤ ms then 0 else ms

/-- `v = h*3600 + m*60 + s; v *= 1000; v += ms; value->num = v; value->den = 1000;`
together with the preceding millisecond adjustment. -/
def clock_value (h m s ms : Nat) : Int × Nat :=
  (((h * 3600 + m * 60 + s) * 1000 + clock_ms_adjust ms : Nat), 1000)

/-- The clock-time (`date[0] == 'T'`) branch of `reframer_parse_date`
(reframer.c lines 311-335): the three dotted patterns are tried in order
when the string contains a `.`, the two plain patterns otherwise, all
reading the same stack variables `h, m, s, ms` (initialized to 0), so a
field assigned by a partially matching earlier pattern persists into the
fallback. Returns the parsed `(num, den)` fraction, `none` on failure. -/
def reframer_parse_date_clock (l : List Char) : Option (Int × Nat) :=
  match l with
  | 'T' :: _ =>
    let f0 : ClockFields := ⟨0, 0, 0, 0⟩
    if '.' ∈ l then
      let r1 := scan_T_hms_ms f0 l
      if r1.1 = 4 then some (clock_value r1.2.h r1.2.m r1.2.s r1.2.ms)
      else
        let r2 := scan_T_ms_ms r1.2 l
        if r2.1 = 3 then some (clock_value r2.2.h r2.2.m r2.2.s r2.2.ms)
        else
          let r3 := scan_T_s_ms r2.2 l
          if r3.1 = 2 then some (clock_value r3.2.h r3.2.m r3.2.s r3.2.ms)
          else none
    else
      let r1 := scan_T_hms f0 l
      if r1.1 = 3 then some (clock_value r1.2.h r1.2.m r1.2.s r1.2.ms)
      else
        let r2 := scan_T_m_s r1.2 l
        if r2.1 = 2 then some (clock_value r2.2.h r2.2.m r2.2.s r2.2.ms)
        else none
  | _ => none

/-! ## The frame allow-list gate of `reframer_send_packet` -/

/-- The linear scan over `ctx->frames.vals` (reframer.c lines 650-655). -/
def frames_lookup : List Nat → Nat → Bool
  | [], _ => false
  | v :: rest, x => if v = x then true else frames_lookup rest x

/-- Emission decision of `reframer_send_packet` for a packet that reaches the
allow-list gate (reframer.c lines 647-662), in the non-real-time path with
no SAP/reference filtering: `true` when the packet is forwarded downstream,
`false` when it is dropped by the frame allow-list. The gate only runs when
`!ctx->range_type && ctx->frames.nb_items`. -/
def reframer_send_decision (range_type : Nat) (frames : List Nat) (nb_frames : Nat) : Bool :=
  if range_type = RANGE_NONE ∧ frames ≠ [] then
    frames_lookup frames (nb_frames + 1)
  else true

/-! ## The size-split rounding decision of `check_gop_split` -/

/-- The candidate choice of `check_gop_split` in `EXTRACT_SIZE` mode
(reframer.c lines 1136-1163): given the rounding policy, the target
`split_size`, the previous candidate (`est_file_size`,
`prev_min_ts_computed`, `prev_min_ts_scale`) and the current candidate
(`cumulated_size`, `min_ts_computed`, `min_ts_scale`), returns the
resulting (`est_file_size`, `min_ts_computed`, `min_ts_scale`). -/
def size_split_decide (xround split_size est_file_size cumulated_size
    prev_min_ts prev_min_scale min_ts min_scale : Nat) : Nat × Nat × Nat :=
  let use_prev :=
    if xround = REFRAME_ROUND_BEFORE then true
    else if xround = REFRAME_ROUND_AFTER then false
    else
      if ((split_size : Int) - (cumulated_size : Int)).natAbs
          < ((split_size : Int) - (est_file_size : Int)).natAbs then false
      else true
  let use_prev := if prev_min_scale = 0 then false else use_prev
  if use_prev then (est_file_size, prev_min_ts, prev_min_scale)
  else (cumulated_size, min_ts, min_scale)

/-! ## The timestamp rewrite of `reframer_send_packet` -/

/-- `2^64`: the modulus of the u64 cast applied when a rewritten s64
timestamp is stored back into a packet. -/
def U64_MOD : Nat := 18446744073709551616

/-- The timestamp rewrite of `reframer_send_packet` (reframer.c lines
787-813), for a packet emitted while a range is active
(`st->ts_at_range_start_plus_one != 0`). `GF_FILTER_NO_TS` is modelled as
`none` (the C code checks the sentinel on the sum `orig + cts_offset`; for
packets with a known timestamp the two checks agree). Returns the pair
(composition timestamp, decoding timestamp) written to the output packet:
the CTS path clamps a negative result to 0 (with a warning) before the u64
store; the DTS path (taken when `!ctx->raw`) stores the s64 through a plain
u64 cast, i.e. reduction mod `2^64`, with no clamp. In raw mode the DTS is
set from the already-clamped CTS value. -/
def reframer_rewrite_ts (raw : Bool) (cts dts : Option Nat)
    (cts_offset tk_delay ts_at_range_end ts_at_range_start_plus_one : Nat) :
    Option Nat × Option Nat :=
  let cts_out : Option Nat :=
    match cts with
    | none => none
    | some c =>
      let ts : Int := (c : Int) + (cts_offset : Int) + (tk_delay : Int)
        + (ts_at_range_end : Int) - ((ts_at_range_start_plus_one - 1 : Nat) : Int)
      some (if ts < 0 then 0 else ts.toNat)
  let dts_out : Option Nat :=
    if raw then cts_out
    else
      match dts with
      | none => none
      | some dv =>
        let ts : Int := (dv : Int) + (cts_offset : Int) + (tk_delay : Int)
          - ((ts_at_range_start_plus_one - 1 : Nat) : Int) + (ts_at_range_end : Int)
        some ((ts % (U64_MOD : Int)).toNat)
  (cts_out, dts_out)

/-! ## The packet/range classifier `reframer_check_pck_range` -/

/-- Embedding of `reframer_check_pck_range` (reframer.c lines 863-916).
Returns the pair (classification, `nb_audio_samples_to_keep`) where the
classification is 0 = before range, 1 = inside, 2 = spans-or-past-end.
Range boundaries are on the nonnegative domain produced by the range
parser, so the s64 cross-multiplication comparisons are modelled on `Nat`.
The audio-sample rescale `nb * sample_rate / timescale` mirrors the
truncating integer rescale of the C code. -/
def reframer_check_pck_range (start_fidx_p1 end_fidx_p1 range_type
    start_num start_den end_num end_den timescale abps sample_rate
    ts dur frame_idx : Nat) : Nat × Nat :=
  if start_fidx_p1 ≠ 0 then
    if frame_idx < start_fidx_p1 then (0, 0)
    else if range_type ≠ RANGE_OPEN ∧ end_fidx_p1 ≤ frame_idx then (2, 0)
    else (1, 0)
  else
    let before0 : Bool := ts * start_den < start_num * timescale
    let start_split : Bool :=
      before0 && (abps ≠ 0 : Bool) && (start_num * timescale < (ts + dur) * start_den : Bool)
    let nb1 : Nat :=
      if start_split then
        let nb := start_num * timescale / start_den - ts
        if timescale ≠ sample_rate then nb * sample_rate / timescale else nb
      else 0
    let before : Bool := before0 && ! start_split
    let after : Bool :=
      (range_type ≠ RANGE_OPEN : Bool) && (end_num * timescale < (ts + dur) * end_den : Bool)
    let end_split : Bool :=
      after && (abps ≠ 0 : Bool) && (ts * end_den < end_num * timescale : Bool)
    let nb2 : Nat :=
      if end_split then
        let nb := end_num * timescale / end_den - ts
        if timescale ≠ sample_rate then nb * sample_rate / timescale else nb
      else nb1
    if before then (if ! after then (0, nb2) else (2, nb2))
    else if after then (2, nb2)
    else (1, nb2)

/-! ## Raw-audio splitting: `reframer_copy_raw_audio` and its call sites -/

/-- `memcpy` reading side over byte lists: `len` bytes of `src` starting at
`srcOff`; reads past the end of `src` contribute nothing visible. -/
def memcpy_bytes (src : List Nat) (srcOff len : Nat) : List Nat :=
  (src.drop srcOff).take len

/-- `memcpy` writing side: store `bytes` into `dst` at position `pos`; writes
beyond the end of `dst` fall outside the allocated packet buffer, so only
the part landing inside `dst` is visible. The result keeps `dst`'s length. -/
def write_bytes (dst : List Nat) (pos : Nat) (bytes : List Nat) : List Nat :=
  dst.take pos ++ bytes.take (dst.length - pos) ++ dst.drop (pos + bytes.length)

/-- Embedding of `reframer_copy_raw_audio` (reframer.c lines 579-591):
planar layout copies `nb_samp * bps` bytes per channel with source stride
`src_size / nb_ch` and destination stride `bps * nb_samp`; interleaved
layout is a single `memcpy` of `nb_samp * abps` bytes from byte offset
`offset * abps`. -/
def reframer_copy_raw_audio (audio_planar : Bool) (nb_ch abps : Nat)
    (src : List Nat) (offset : Nat) (dst : List Nat) (nb_samp : Nat) : List Nat :=
  if audio_planar then
    let stride := src.length / nb_ch
    let bps := abps / nb_ch
    (List.range nb_ch).foldl
      (fun d i =>
        write_bytes d (i * bps * nb_samp)
          (memcpy_bytes src (i * stride + offset * bps) (nb_samp * bps)))
      dst
  else
    write_bytes dst 0 (memcpy_bytes src (offset * abps) (nb_samp * abps))

/-- First emitted fragment of a split raw-audio packet: the
`pck == st->split_pck` branch of `reframer_send_packet` (lines 689-696): a
fresh packet of `audio_samples_to_keep * abps` bytes filled from offset 0
with `nb_samp = audio_samples_to_keep`. -/
def split_first_fragment (planar : Bool) (nb_ch abps : Nat)
    (data : List Nat) (keep : Nat) : List Nat :=
  reframer_copy_raw_audio planar nb_ch abps data 0 (List.replicate (keep * abps) 0) keep

/-- Duration (sample count) given to the first fragment (line 696). -/
def split_first_samples (keep : Nat) : Nat := keep

/-- Second emitted fragment (remainder) of a split raw-audio packet: the
other `st->audio_samples_to_keep` branch of `reframer_send_packet`
(lines 697-706): a fresh packet of `pck_size - keep * abps` bytes filled
from sample offset `keep`. NOTE: the C call passes the BYTE count
`pck_size - st->audio_samples_to_keep * st->abps` as the `nb_samp`
argument of `reframer_copy_raw_audio`. -/
def split_second_fragment (planar : Bool) (nb_ch abps : Nat)
    (data : List Nat) (keep : Nat) : List Nat :=
  reframer_copy_raw_audio planar nb_ch abps data keep
    (List.replicate (data.length - keep * abps) 0) (data.length - keep * abps)

/-- Duration (sample count) given to the second fragment:
`pck_size/st->abps - st->audio_samples_to_keep` (line 706). -/
def split_second_samples (abps : Nat) (data : List Nat) (keep : Nat) : Nat :=
  data.length / abps - keep

/-! ## The real-time pacing gate of `reframer_send_packet` -/

/-- Per-stream (or, in `sync` mode, shared) pacing clock anchor:
`st->sys_clock_at_init` and `st->cts_us_at_init`. An anchor with
`sys_clock_at_init = 0` is not yet initialized. -/
structure RtClock where
  sys_clock_at_init : Nat
  cts_us_at_init : Nat
deriving DecidableEq

/-- The real-time gate of `reframer_send_packet` (reframer.c lines 598-644),
for a packet with a known timestamp, after that timestamp (including
`st->tk_delay`) has been converted to microseconds (`cts_us`). The
configured `Double speed` is modelled as a rational; the `(u64)` cast of
the double division truncates, i.e. floors on this nonnegative domain.
Returns `(do_send, updated anchor, updated reschedule_in)`. -/
def rt_gate (speed : ℚ) (clock_val : Nat) (c : RtClock) (cts_us : Nat)
    (reschedule_in : Nat) : Bool × RtClock × Nat :=
  if c.sys_clock_at_init = 0 then (true, ⟨clock_val, cts_us⟩, reschedule_in)
  else if cts_us < c.cts_us_at_init then (true, c, reschedule_in)
  else
    let diff0 : Nat := cts_us - c.cts_us_at_init
    let diff : Nat :=
      if 0 < speed then (Int.floor ((diff0 : ℚ) / speed)).toNat
      else if speed < 0 then (Int.floor ((diff0 : ℚ) / (-speed))).toNat
      else diff0
    let clock : Nat := clock_val - c.sys_clock_at_init
    if diff ≤ clock + RT_PRECISION_US then (true, c, reschedule_in)
    else
      (false, c,
        if reschedule_in = 0 then diff - clock
        else if diff - clock < reschedule_in then diff - clock else reschedule_in)

/-- The remaining wait of a pending packet under `rt_gate`: `none` when the
packet is eligible for emission, `some (diff - clock)` otherwise. -/
def rt_wait (speed : ℚ) (clock_val : Nat) (c : RtClock) (cts_us : Nat) : Option Nat :=
  if c.sys_clock_at_init = 0 then none
  else if cts_us < c.cts_us_at_init then none
  else
    let diff0 : Nat := cts_us - c.cts_us_at_init
    let diff : Nat :=
      if 0 < speed then (Int.floor ((diff0 : ℚ) / speed)).toNat
      else if speed < 0 then (Int.floor ((diff0 : ℚ) / (-speed))).toNat
      else diff0
    let clock : Nat := clock_val - c.sys_clock_at_init
    if diff ≤ clock + RT_PRECISION_US then none
    else some (diff - clock)

/-- The `ctx->reschedule_in` update (reframer.c lines 638-641): 0 means
"unset", otherwise keep the minimum. -/
def resched_update (r d : Nat) : Nat :=
  if r = 0 then d else if d < r then d else r

/-- The `reschedule_in` accumulation over the pending packets examined in
one `reframer_process` invocation (the anchor is already set, so the clock
state is not changed by the individual gates). -/
def rt_gate_fold (speed : ℚ) (clock_val : Nat) (c : RtClock) :
    List Nat → Nat → Nat
  | [], r => r
  | ts :: rest, r =>
    rt_gate_fold speed clock_val c rest (rt_gate speed clock_val c ts r).2.2

/-! ## Cross-range timestamp continuity of one stream -/

/-- A queued packet of one stream: its timestamp (dts, or cts when the dts
is unknown) and its duration, both in the stream's timescale. -/
structure SPck where
  ts : Nat
  dur : Nat
deriving DecidableEq

/-- Per-stream emission across the concatenated ranges of a SAP/size split,
driven by the accepted cut points (each `st->range_end_reached_ts` is
`cut + 1`, check_gop_split line 1177): packets whose delayed timestamp is
below the cut are emitted (reframer_process line 1737);
`st->ts_at_range_start_plus_one` is taken from the queue head when the cut
is accepted (check_gop_split lines 1179-1184); each output timestamp is
rewritten as in reframer_send_packet lines 787-804 (the clamp of a negative
s64 to 0 is `Int.toNat`); and `st->ts_at_range_end` advances at the range
transition by `(range_end_reached_ts - 1) - (ts_at_range_start_plus_one - 1)`
(reframer_process line 1833). `d` is `st->tk_delay`, `E` the accumulated
`ts_at_range_end`. Returns, per range, the emitted
(output timestamp, duration) pairs. -/
def process_ranges (d : Nat) : Nat → List SPck → List Nat → List (List (Nat × Nat))
  | _, _, [] => []
  | _, [], _ :: _ => []
  | E, q0 :: qrest, cut :: cuts =>
    let queue := q0 :: qrest
    let startp1 := q0.ts + d + 1
    let emitted := queue.takeWhile (fun p => p.ts + d < cut)
    let remain := queue.dropWhile (fun p => p.ts + d < cut)
    let outs := emitted.map (fun p =>
      ((((p.ts + d : Nat) : Int) + (E : Int) - ((startp1 - 1 : Nat) : Int)).toNat, p.dur))
    outs :: process_ranges d (E + ((cut + 1) - 1) - (startp1 - 1)) remain cuts

/-- Every cut point lies on a packet boundary of this stream: each cut is
strictly after its range's first packet, and when packets remain after the
cut, the first remaining packet starts exactly at the cut (this is how
check_gop_split's accepted `min_ts` relates to a stream whose own sync
point produced it; cross-timescale rescaling can break it). -/
def ranges_ok (d : Nat) : List SPck → List Nat → Bool
  | _, [] => true
  | queue, cut :: cuts =>
    (! (queue.takeWhile (fun p => p.ts + d < cut)).isEmpty)
    && ((queue.dropWhile (fun p => p.ts + d < cut)).head?.all
          (fun b => b.ts + d = cut))
    && ranges_ok d (queue.dropWhile (fun p => p.ts + d < cut)) cuts

/-! ## Cut-point selection of `check_gop_split` -/

/-- A queued packet as seen by `check_gop_split`: decoding timestamp
(`none` for `GF_FILTER_NO_TS`), composition timestamp, duration and SAP
flag. -/
structure RPck where
  dts : Option Nat
  cts : Nat
  dur : Nat
  sap : Bool
deriving DecidableEq

/-- Per-stream state consumed by the cut-point selection. -/
structure RStream where
  timescale : Nat
  tk_delay : Nat
  all_saps : Bool
  in_eos : Bool
  reinsert_single : Bool
  queue : List RPck
deriving DecidableEq

/-- dts-or-cts plus `st->tk_delay`, as read throughout `check_gop_split`. -/
def rpck_ts (st : RStream) (p : RPck) : Nat := p.dts.getD p.cts + st.tk_delay

/-- The per-stream candidate scan of `check_gop_split` (reframer.c lines
974-992): skip non-SAP packets (unless forced raw), count SAPs, and take
the timestamp of the first SAP beyond `1 + gop_depth` (0 when none). -/
def last_sap_scan (raw : Bool) (gd : Nat) (st : RStream) : List RPck → Nat → Nat
  | [], _ => 0
  | p :: rest, nb_sap =>
    if ¬ raw ∧ p.sap = false then last_sap_scan raw gd st rest nb_sap
    else if nb_sap + 1 ≤ 1 + gd then last_sap_scan raw gd st rest (nb_sap + 1)
    else rpck_ts st p

/-- A stream's cut-point candidate (`last_sap_ts`, 0 when none). -/
def stream_last_sap (raw : Bool) (gd : Nat) (st : RStream) : Nat :=
  last_sap_scan raw gd st st.queue 0

/-- Accumulator of the stream loop of `check_gop_split` (lines 960-1013). -/
structure GopAcc where
  min_ts : Nat
  min_timescale : Nat
  min_ts_a : Nat
  min_timescale_a : Nat
  nb_eos : Nat
  has_empty : Bool
  wait_for_sap : Bool
  flush_all : Bool
deriving DecidableEq

/-- One iteration of the stream loop of `check_gop_split` (lines 960-1013):
an eos stream with an empty queue only counts towards `nb_eos`/`has_empty`;
otherwise the stream's candidate is computed and the matching pool — the
sparse-sync pool (`min_ts`/`min_timescale`) or the all-sync pool
(`min_ts_a`/`min_timescale_a`) — and the eos/flush/wait flags are
updated. -/
def gop_scan_step (raw : Bool) (gd : Nat) (st : RStream) (acc : GopAcc) : GopAcc :=
  if st.in_eos ∧ st.queue.length = 0 then
    { acc with nb_eos := acc.nb_eos + 1, has_empty := true }
  else
    let acc1 := if st.in_eos then { acc with nb_eos := acc.nb_eos + 1 } else acc
    let last_sap := stream_last_sap raw gd st
    let acc2 :=
      if last_sap = 0 then
        if st.in_eos ∧ acc1.flush_all = false ∧ st.reinsert_single = false then
          { acc1 with flush_all := true }
        else if st.all_saps = false then { acc1 with wait_for_sap := true }
        else acc1
      else acc1
    if st.all_saps then
      if acc2.min_ts_a = 0 ∨ last_sap * acc2.min_timescale_a < acc2.min_ts_a * st.timescale
      then { acc2 with min_ts_a := last_sap, min_timescale_a := st.timescale }
      else acc2
    else
      if acc2.min_ts = 0 ∨ last_sap * acc2.min_timescale < acc2.min_ts * st.timescale
      then { acc2 with min_ts := last_sap, min_timescale := st.timescale }
      else acc2

/-- The stream loop of `check_gop_split` (lines 960-1013), one
`gop_scan_step` per stream in order. -/
def gop_scan (raw : Bool) (gd : Nat) : List RStream → GopAcc → GopAcc
  | [], acc => acc
  | st :: rest, acc => gop_scan raw gd rest (gop_scan_step raw gd st acc)

/-- The final-flush pass of `check_gop_split` (lines 1021-1043): every
stream must already be at end of stream (otherwise the invocation
returns), and the end time is the max over each stream's last packet
timestamp plus duration. -/
def gop_flush_scan (streams : List RStream) (m sc : Nat) : Option (Nat × Nat) :=
  match streams with
  | [] => some (m, sc)
  | st :: rest =>
    if st.in_eos = false then none
    else
      match st.queue.getLast? with
      | none => gop_flush_scan rest m sc
      | some p =>
        let dur := if p.dur = 0 then 1 else p.dur
        let ts := p.dts.getD p.cts + st.tk_delay + dur
        if m = 0 ∨ m * st.timescale < ts * sc then gop_flush_scan rest ts st.timescale
        else gop_flush_scan rest m sc

/-- The cut-point selection block of `check_gop_split` (reframer.c lines
952-1059), entered when `ctx->min_ts_scale` is not yet set: returns the
(`min_ts_computed`, `min_ts_scale`) pair written to the context — the
accepted canonical cut timestamp — or `none` when the invocation returns
to wait for more input. The fall-through case where no candidate exists
but every stream is at end of stream leaves the pair unset; it is
returned here as `(0, 0)`. -/
def gop_split_select (raw : Bool) (gd : Nat) (streams : List RStream) :
    Option (Nat × Nat) :=
  let acc := gop_scan raw gd streams ⟨0, 0, 0, 0, 0, false, false, false⟩
  let flush := acc.flush_all ∨ (acc.nb_eos ≠ 0 ∧ acc.has_empty = true)
  match (if flush then gop_flush_scan streams acc.min_ts acc.min_timescale
         else some (acc.min_ts, acc.min_timescale)) with
  | none => none
  | some (m0, sc0) =>
    if m0 = 0 then
      if acc.wait_for_sap then none
      else if acc.min_ts_a = 0 then
        if acc.nb_eos < streams.length then none else some (0, 0)
      else some (acc.min_ts_a, acc.min_timescale_a)
    else some (m0, sc0)

/-- An all-sync stream (timescale 1, no delay) with sync points at
timestamps 0, 5 and 12. -/
def c1_stream_a : RStream :=
  ⟨1, 0, true, false, false,
    [⟨some 0, 0, 5, true⟩, ⟨some 5, 5, 7, true⟩, ⟨some 12, 12, 1, true⟩]⟩

/-- A sparse-sync stream (timescale 1, no delay): sync at 0, a predicted
frame at 1, sync at 10. -/
def c1_stream_b : RStream :=
  ⟨1, 0, false, false, false,
    [⟨some 0, 0, 1, true⟩, ⟨some 1, 1, 9, false⟩, ⟨some 10, 10, 1, true⟩]⟩

end Reframer

namespace Reframer

/-! ## Theorems: C10, C8, C9, C4 -/

/-- Helper: the linear allow-list scan decides membership. -/
theorem frames_lookup_eq_mem (l : List Nat) (x : Nat) :
    frames_lookup l x = true ↔ x ∈ l := by
  induction l with
  | nil => simp [frames_lookup]
  | cons v rest ih =>
    by_cases h : v = x
    · simp [frames_lookup, h]
    · simp [frames_lookup, h, ih, Ne.symm h]

/-- C10 counterexample: the parse of `"T1:2.5000"` does succeed with the
millisecond field zeroed, but it yields `3662000/1000`, not the claimed
`62000/1000`: the failed first pattern `T%u:%u:%u.%u` completes two
conversions before mismatching, leaving `h = 1` (and `m = 2`) assigned;
the fallback `T%u:%u.%u` then sets `m = 1`, `s = 2`, `ms = 5000`, so the
code computes `(1*3600 + 1*60 + 2)*1000 = 3662000`. -/
theorem c10_counterexample :
    reframer_parse_date_clock ['T', '1', ':', '2', '.', '5', '0', '0', '0']
      = some (3662000, 1000) ∧
    ((3662000 : Int), (1000 : Nat)) ≠ ((62000 : Int), (1000 : Nat)) := by decide

/-- C10 (amended): a clock-time string of the form `T...m:s.ms` whose
millisecond field parses to 1000 or more is not rejected: the parse
succeeds with the millisecond component silently replaced by 0 (never a
carry into seconds) — but, because the stale `h` assigned by the failed
`T%u:%u:%u.%u` attempt survives into the fallback, `"T1:2.5000"` yields
`3662000/1000` rather than `62000/1000`. -/
theorem c10_clock_ms_overflow :
    reframer_parse_date_clock ['T', '1', ':', '2', '.', '5', '0', '0', '0']
      = some (3662000, 1000) ∧
    ∀ h m s ms, 1000 ≤ ms → clock_value h m s ms = clock_value h m s 0 := by
  constructor
  · decide
  · intro h m s ms hms
    simp [clock_value, clock_ms_adjust, hms]

/-- Witness for the amended C10 at a concrete input. -/
theorem c10_clock_ms_overflow_witness :
    clock_value 3 4 5 2000 = clock_value 3 4 5 0 :=
  c10_clock_ms_overflow.2 3 4 5 2000 (by decide)

/-- C8 counterexample: with an active range (`range_type = RANGE_OPEN`), a
packet whose 1-based ordinal (5) is not in the allow-list `[1]` is still
forwarded, so "forwarded iff the ordinal appears in the allow-list" fails
as soon as any range extraction is configured. -/
theorem c8_counterexample :
    reframer_send_decision RANGE_OPEN [1] 4 = true ∧
    frames_lookup [1] (4 + 1) = false := by decide

/-- C8 (amended): when the frame allow-list is non-empty AND no range
extraction is configured (`range_type = RANGE_NONE`), a packet is forwarded
iff its 1-based ordinal appears in the allow-list, and the decision is
invariant under permutations of the allow-list. -/
theorem c8_frames_filter (frames : List Nat) (n : Nat) (hne : frames ≠ []) :
    (reframer_send_decision RANGE_NONE frames n = true ↔ (n + 1) ∈ frames) ∧
    (∀ frames2, frames.Perm frames2 →
      reframer_send_decision RANGE_NONE frames n
        = reframer_send_decision RANGE_NONE frames2 n) := by
  constructor
  · simp [reframer_send_decision, hne, frames_lookup_eq_mem]
  · intro frames2 hperm
    have hne2 : frames2 ≠ [] := by
      intro h
      exact hne (h ▸ hperm).eq_nil
    have key : ∀ l : List Nat, l ≠ [] →
        reframer_send_decision RANGE_NONE l n = frames_lookup l (n + 1) := by
      intro l hl
      simp [reframer_send_decision, hl]
    rw [key frames hne, key frames2 hne2]
    rcases h1 : frames_lookup frames (n + 1) with _ | _ <;>
      rcases h2 : frames_lookup frames2 (n + 1) with _ | _ <;> try rfl
    · rw [frames_lookup_eq_mem] at h2
      have := hperm.mem_iff.mpr h2
      rw [← frames_lookup_eq_mem, h1] at this
      exact this
    · rw [frames_lookup_eq_mem] at h1
      have := hperm.mem_iff.mp h1
      rw [← frames_lookup_eq_mem, h2] at this
      exact this.symm

/-- Witness for the amended C8 at a concrete input. -/
theorem c8_frames_filter_witness :
    reframer_send_decision RANGE_NONE [2, 5] 4 = true ↔ (4 + 1) ∈ [2, 5] :=
  (c8_frames_filter [2, 5] 4 (by decide)).1

/-- C9: when any range extraction is configured (`range_type ≠ RANGE_NONE`),
the frame allow-list has no filtering effect: the packet is emitted, and the
decision does not depend on the allow-list at all. -/
theorem c9_frames_ignored_in_ranges (range_type : Nat)
    (h : range_type ≠ RANGE_NONE) (frames frames2 : List Nat) (n : Nat) :
    reframer_send_decision range_type frames n = true ∧
    reframer_send_decision range_type frames n
      = reframer_send_decision range_type frames2 n := by
  constructor <;> simp [reframer_send_decision, h]

/-- Witness for C9 at a concrete input. -/
theorem c9_frames_ignored_in_ranges_witness :
    reframer_send_decision RANGE_CLOSED [1] 7 = true ∧
    reframer_send_decision RANGE_CLOSED [1] 7
      = reframer_send_decision RANGE_CLOSED [3, 4] 7 :=
  c9_frames_ignored_in_ranges RANGE_CLOSED (by decide) [1] [3, 4] 7

/-- C4 counterexample: under the `before` rounding policy, when no previous
candidate was recorded (`prev_min_ts_scale = 0`, first estimate already at
or past the target), the code picks the *current* candidate, not the earlier
one: the claim "always picks the earlier candidate under before" fails. -/
theorem c4_counterexample :
    size_split_decide REFRAME_ROUND_BEFORE 100 7 150 0 0 50 1 = (150, 50, 1) ∧
    ((150, 50, 1) : Nat × Nat × Nat) ≠ (7, 0, 0) := by decide

/-- C4 (amended): provided a previous candidate exists
(`prev_min_ts_scale ≠ 0`), the `before` policy picks the previous candidate,
the `after` policy picks the current one, and `closest` picks whichever
cumulative size is nearest the target (ties to the previous); the chosen
candidate's cumulative size becomes `est_file_size`. When no previous
candidate exists the current one is used regardless of policy. -/
theorem c4_round_policy (split est cum pts psc mts msc : Nat) (hpsc : psc ≠ 0) :
    size_split_decide REFRAME_ROUND_BEFORE split est cum pts psc mts msc
      = (est, pts, psc) ∧
    size_split_decide REFRAME_ROUND_AFTER split est cum pts psc mts msc
      = (cum, mts, msc) ∧
    size_split_decide REFRAME_ROUND_CLOSEST split est cum pts psc mts msc
      = (if ((split : Int) - (cum : Int)).natAbs < ((split : Int) - (est : Int)).natAbs
         then (cum, mts, msc) else (est, pts, psc)) ∧
    (∀ xround, size_split_decide xround split est cum pts 0 mts msc
      = (cum, mts, msc)) := by
  refine ⟨?_, ?_, ?_, ?_⟩
  · simp [size_split_decide, hpsc]
  · simp [size_split_decide, hpsc, REFRAME_ROUND_AFTER, REFRAME_ROUND_BEFORE]
  · by_cases hab : ((split : Int) - (cum : Int)).natAbs
        < ((split : Int) - (est : Int)).natAbs
    · simp [size_split_decide, REFRAME_ROUND_CLOSEST, REFRAME_ROUND_BEFORE,
        REFRAME_ROUND_AFTER, hpsc, hab]
    · simp [size_split_decide, REFRAME_ROUND_CLOSEST, REFRAME_ROUND_BEFORE,
        REFRAME_ROUND_AFTER, hpsc, hab]
  · intro xround
    simp [size_split_decide]

/-- Witness for the amended C4 at a concrete input. -/
theorem c4_round_policy_witness :
    size_split_decide REFRAME_ROUND_BEFORE 100 80 150 40 1 50 1 = (80, 40, 1) :=
  (c4_round_policy 100 80 150 40 1 50 1 (by decide)).1

/-! ## Theorems: C3 (timestamp rewrite) -/

/-- C3 counterexample: for a non-raw packet whose rewrite computation is
negative (original cts = dts = 5, range start timestamp 10, no delay and no
accumulated offset), the presentation timestamp is clamped to 0 but the
decoding timestamp is NOT clamped: it is stored through the u64 cast as
`2^64 - 5`; so "clamped to zero for both" fails for the decoding timestamp. -/
theorem c3_counterexample :
    reframer_rewrite_ts false (some 5) (some 5) 0 0 0 11
      = (some 0, some (U64_MOD - 5)) ∧ U64_MOD - 5 ≠ 0 := by decide

/-- C3 (amended): while a range is active, both rewritten timestamps equal
`original + cts_offset + encoder_delay - range_start_ts + accumulated_offset`
whenever that value is nonnegative (and representable); when it underflows,
only the presentation timestamp is clamped to zero (with a warning) — the
decoding timestamp of a non-raw stream is stored through a plain u64 cast,
yielding the nonzero value `underflow + 2^64`; in raw mode the decoding
timestamp is copied from the clamped presentation timestamp. -/
theorem c3_rewrite_formula (raw : Bool) (c dv cts_offset tk_delay E startp1 : Nat)
    (hs : 1 ≤ startp1) :
    (0 ≤ (c : Int) + cts_offset + tk_delay + E - ((startp1 : Int) - 1) →
      (reframer_rewrite_ts raw (some c) (some dv) cts_offset tk_delay E startp1).1
        = some ((c : Int) + cts_offset + tk_delay + E - ((startp1 : Int) - 1)).toNat) ∧
    ((c : Int) + cts_offset + tk_delay + E - ((startp1 : Int) - 1) < 0 →
      (reframer_rewrite_ts raw (some c) (some dv) cts_offset tk_delay E startp1).1
        = some 0) ∧
    (raw = true →
      (reframer_rewrite_ts raw (some c) (some dv) cts_offset tk_delay E startp1).2
        = (reframer_rewrite_ts raw (some c) (some dv) cts_offset tk_delay E startp1).1) ∧
    (raw = false →
      0 ≤ (dv : Int) + cts_offset + tk_delay + E - ((startp1 : Int) - 1) →
      (dv : Int) + cts_offset + tk_delay + E - ((startp1 : Int) - 1) < (U64_MOD : Int) →
      (reframer_rewrite_ts raw (some c) (some dv) cts_offset tk_delay E startp1).2
        = some ((dv : Int) + cts_offset + tk_delay + E - ((startp1 : Int) - 1)).toNat) ∧
    (raw = false →
      (dv : Int) + cts_offset + tk_delay + E - ((startp1 : Int) - 1) < 0 →
      -(U64_MOD : Int) < (dv : Int) + cts_offset + tk_delay + E - ((startp1 : Int) - 1) →
      (reframer_rewrite_ts raw (some c) (some dv) cts_offset tk_delay E startp1).2
        = some ((dv : Int) + cts_offset + tk_delay + E - ((startp1 : Int) - 1)
            + (U64_MOD : Int)).toNat ∧
      (reframer_rewrite_ts raw (some c) (some dv) cts_offset tk_delay E startp1).2
        ≠ some 0) := by
  have hcast : ((startp1 - 1 : Nat) : Int) = (startp1 : Int) - 1 := by
    omega
  refine ⟨?_, ?_, ?_, ?_, ?_⟩
  · intro hge
    simp only [reframer_rewrite_ts, hcast]
    rw [if_neg (by omega)]
  · intro hlt
    simp only [reframer_rewrite_ts, hcast]
    rw [if_pos (by omega)]
  · intro hraw
    subst hraw
    simp [reframer_rewrite_ts]
  · intro hraw hge hlt
    subst hraw
    simp only [reframer_rewrite_ts, hcast, Bool.false_eq_true, if_false]
    have harr : (dv : Int) + cts_offset + tk_delay - ((startp1 : Int) - 1) + E
        = (dv : Int) + cts_offset + tk_delay + E - ((startp1 : Int) - 1) := by ring
    rw [harr, Int.emod_eq_of_lt hge hlt]
  · intro hraw hlt hgt
    subst hraw
    simp only [reframer_rewrite_ts, hcast, Bool.false_eq_true, if_false]
    have hX0 : 0 ≤ (dv : Int) + cts_offset + tk_delay + E - ((startp1 : Int) - 1)
        + (U64_MOD : Int) := by
      simp only [U64_MOD] at hgt ⊢
      omega
    have hXM : (dv : Int) + cts_offset + tk_delay + E - ((startp1 : Int) - 1)
        + (U64_MOD : Int) < (U64_MOD : Int) := by
      simp only [U64_MOD] at hlt ⊢
      omega
    have hmod : ((dv : Int) + cts_offset + tk_delay - ((startp1 : Int) - 1) + E) % (U64_MOD : Int)
        = (dv : Int) + cts_offset + tk_delay + E - ((startp1 : Int) - 1) + (U64_MOD : Int) := by
      have h1 : ((dv : Int) + cts_offset + tk_delay - ((startp1 : Int) - 1) + E)
          = ((dv : Int) + cts_offset + tk_delay + E - ((startp1 : Int) - 1)
              + (U64_MOD : Int)) + (U64_MOD : Int) * (-1) := by ring
      rw [h1, Int.add_mul_emod_self_left, Int.emod_eq_of_lt hX0 hXM]
    constructor
    · rw [hmod]
    · rw [hmod]
      intro hcontra
      have h2 := Option.some.inj hcontra
      rw [Int.toNat_eq_zero] at h2
      simp only [U64_MOD] at h2 hgt
      omega

/-- Witness for the amended C3 at a concrete input. -/
theorem c3_rewrite_formula_witness :
    (reframer_rewrite_ts false (some 100) (some 100) 0 0 0 11).1
      = some ((100 : Int) + 0 + 0 + 0 - ((11 : Int) - 1)).toNat :=
  (c3_rewrite_formula false 100 100 0 0 0 11 (by decide)).1 (by decide)

/-! ## Theorems: C5 (time-indexed classifier) -/

/-- C5 counterexample: a long packet (`ts = 5`, `dur = 100`) against the
closed range `[10, 20)` at timescale 1 both starts before the range and
extends past its end: the classifier returns 2, even though
`ts*start.den < start.num*timescale` holds, so "returns 0 (before) iff
`ts*start.den < start.num*timescale`" fails. -/
theorem c5_counterexample :
    (reframer_check_pck_range 0 0 RANGE_CLOSED 10 1 20 1 1 0 0 5 100 0).1 = 2 ∧
    5 * 1 < 10 * 1 := by decide

/-- C5 (amended): for a time-indexed range and a non-splittable,
non-raw-audio packet (`abps = 0`), the classifier returns 0 iff the packet
starts before the range start AND does not extend strictly past a closed
range's end; returns 2 iff the range is closed (not `RANGE_OPEN`) and
`(ts+dur)*end.den > end.num*timescale`; and returns 1 otherwise — all by
cross-multiplied integer comparison. -/
theorem c5_time_range_classifier (range_type start_num start_den end_num end_den
    timescale sample_rate ts dur frame_idx : Nat) :
    ((reframer_check_pck_range 0 0 range_type start_num start_den end_num end_den
        timescale 0 sample_rate ts dur frame_idx).1 = 0
      ↔ (ts * start_den < start_num * timescale ∧
          ¬ (range_type ≠ RANGE_OPEN ∧ end_num * timescale < (ts + dur) * end_den))) ∧
    ((reframer_check_pck_range 0 0 range_type start_num start_den end_num end_den
        timescale 0 sample_rate ts dur frame_idx).1 = 2
      ↔ (range_type ≠ RANGE_OPEN ∧ end_num * timescale < (ts + dur) * end_den)) ∧
    ((reframer_check_pck_range 0 0 range_type start_num start_den end_num end_den
        timescale 0 sample_rate ts dur frame_idx).1 = 1
      ↔ (¬ ts * start_den < start_num * timescale ∧
          ¬ (range_type ≠ RANGE_OPEN ∧ end_num * timescale < (ts + dur) * end_den))) := by
  by_cases hb : ts * start_den < start_num * timescale <;>
    by_cases hro : range_type = RANGE_OPEN <;>
    by_cases he : end_num * timescale < (ts + dur) * end_den <;>
    simp [reframer_check_pck_range, hb, hro, he]

/-! ## Theorems: C6 (raw-audio split round trip) -/

/-- C6: the sample counts of the two fragments do sum to the packet's
total, but the byte-level round-trip law fails. Failing input: planar
8-bit stereo (`nb_ch = 2`, `abps = 2`, `bps = 1`), packet bytes
`[L0, L1, R0, R1] = [10, 11, 20, 21]`, `audio_samples_to_keep = 1`.
The second call site passes the byte count `pck_size - keep*abps = 2` where
`reframer_copy_raw_audio` expects a sample count (the first call site
passes samples), so the per-channel copy uses the wrong destination stride
(and overruns both buffers): the remainder fragment comes out `[11, 20]`
instead of `[11, 21]`, and first ++ second = `[10,20,11,20]` is not the
original packet. -/
theorem c6_roundtrip_violation :
    split_first_samples 1 + split_second_samples 2 [10, 11, 20, 21] 1
      = [10, 11, 20, 21].length / 2 ∧
    split_first_fragment true 2 2 [10, 11, 20, 21] 1 = [10, 20] ∧
    split_second_fragment true 2 2 [10, 11, 20, 21] 1 = [11, 20] ∧
    split_first_fragment true 2 2 [10, 11, 20, 21] 1
        ++ split_second_fragment true 2 2 [10, 11, 20, 21] 1
      ≠ [10, 11, 20, 21] := by decide

/-! ## Theorems: C7 (real-time pacing) -/

/-- Helper: the `reschedule_in` component of one gate call is exactly the
`resched_update` of the packet's remaining wait. -/
theorem rt_gate_resched_eq (speed : ℚ) (clock_val : Nat) (c : RtClock)
    (cts_us r : Nat) :
    (rt_gate speed clock_val c cts_us r).2.2 =
      match rt_wait speed clock_val c cts_us with
      | none => r
      | some d => resched_update r d := by
  unfold rt_gate rt_wait
  dsimp only
  split_ifs <;> (try rfl) <;> simp_all [resched_update] <;> split_ifs <;> omega

/-- Helper: an ineligible packet's remaining wait exceeds the 2 ms slack. -/
theorem rt_wait_pos (speed : ℚ) (clock_val : Nat) (c : RtClock) (cts_us d : Nat)
    (h : rt_wait speed clock_val c cts_us = some d) : 0 < d := by
  unfold rt_wait at h
  dsimp only at h
  split_ifs at h <;> simp_all [RT_PRECISION_US] <;> omega

/-- Helper: folding `resched_update` from a positive seed computes the
minimum of the seed and the (positive) waits. -/
theorem resched_fold_pos (l : List Nat) :
    ∀ r : Nat, 0 < r → (∀ d ∈ l, 0 < d) →
      (List.foldl resched_update r l ≤ r ∧
       (∀ d ∈ l, List.foldl resched_update r l ≤ d) ∧
       (List.foldl resched_update r l = r ∨ List.foldl resched_update r l ∈ l)) := by
  induction l with
  | nil => intro r hr _; simp
  | cons d rest ih =>
    intro r hr hl
    have hd : 0 < d := hl d (by simp)
    have hrest : ∀ x ∈ rest, 0 < x := fun x hx => hl x (by simp [hx])
    simp only [List.foldl_cons]
    have hupd : resched_update r d = if d < r then d else r := by
      simp [resched_update, Nat.pos_iff_ne_zero.mp hr]
    by_cases hdr : d < r
    · rw [hupd, if_pos hdr]
      obtain ⟨h1, h2, h3⟩ := ih d hd hrest
      refine ⟨le_trans h1 (le_of_lt hdr), ?_, ?_⟩
      · intro x hx
        rcases List.mem_cons.mp hx with hx | hx
        · exact hx ▸ h1
        · exact h2 x hx
      · rcases h3 with h3 | h3
        · exact Or.inr (by simp [h3])
        · exact Or.inr (by simp [h3])
    · rw [hupd, if_neg hdr]
      obtain ⟨h1, h2, h3⟩ := ih r hr hrest
      refine ⟨h1, ?_, ?_⟩
      · intro x hx
        rcases List.mem_cons.mp hx with hx | hx
        · exact hx ▸ le_trans h1 (Nat.le_of_not_lt hdr)
        · exact h2 x hx
      · rcases h3 with h3 | h3
        · exact Or.inl h3
        · exact Or.inr (by simp [h3])

/-- Helper: the gate fold equals the `resched_update` fold over the
remaining waits of the pending packets. -/
theorem rt_gate_fold_eq (speed : ℚ) (clock_val : Nat) (c : RtClock)
    (pcks : List Nat) : ∀ r : Nat,
    rt_gate_fold speed clock_val c pcks r =
      List.foldl resched_update r (pcks.filterMap (rt_wait speed clock_val c)) := by
  induction pcks with
  | nil => intro r; simp [rt_gate_fold]
  | cons ts rest ih =>
    intro r
    simp only [rt_gate_fold, List.filterMap_cons]
    rw [rt_gate_resched_eq]
    cases h : rt_wait speed clock_val c ts with
    | none => simp [ih r]
    | some d => simp [ih (resched_update r d)]

/-- C7: in real-time mode, for a packet with a known timestamp considered
after the clock anchor is set, the packet is eligible iff
`elapsed_wall_clock + 2000 ≥ (media_us - anchor_media_us) / |speed|`
(truncating division, a negative configured speed acting as its absolute
value); and over the pending packets of one invocation `reschedule_in`
ends up as the minimum remaining wait (0 when every packet is eligible). -/
theorem c7_rt_pacing (speed : ℚ) (clock_val : Nat) (c : RtClock)
    (hsp : speed ≠ 0) (hc : c.sys_clock_at_init ≠ 0) :
    (∀ cts_us r : Nat, c.cts_us_at_init ≤ cts_us →
      ((rt_gate speed clock_val c cts_us r).1 = true ↔
        (Int.floor (((cts_us - c.cts_us_at_init : Nat) : ℚ) / |speed|)).toNat
          ≤ (clock_val - c.sys_clock_at_init) + RT_PRECISION_US)) ∧
    (∀ pcks : List Nat,
      ((pcks.filterMap (rt_wait speed clock_val c) = [] →
          rt_gate_fold speed clock_val c pcks 0 = 0) ∧
       (∀ d ∈ pcks.filterMap (rt_wait speed clock_val c),
          rt_gate_fold speed clock_val c pcks 0 ≤ d) ∧
       (pcks.filterMap (rt_wait speed clock_val c) ≠ [] →
          rt_gate_fold speed clock_val c pcks 0
            ∈ pcks.filterMap (rt_wait speed clock_val c)))) := by
  constructor
  · intro cts_us r hts
    unfold rt_gate
    rw [if_neg hc, if_neg (Nat.not_lt.mpr hts)]
    have habs : (if 0 < speed then (Int.floor (((cts_us - c.cts_us_at_init : Nat) : ℚ) / speed)).toNat
        else if speed < 0 then (Int.floor (((cts_us - c.cts_us_at_init : Nat) : ℚ) / (-speed))).toNat
        else (cts_us - c.cts_us_at_init : Nat))
        = (Int.floor (((cts_us - c.cts_us_at_init : Nat) : ℚ) / |speed|)).toNat := by
      rcases lt_trichotomy speed 0 with hneg | hzero | hpos
      · rw [if_neg (by exact not_lt.mpr (le_of_lt hneg)), if_pos hneg, abs_of_neg hneg]
      · exact absurd hzero hsp
      · rw [if_pos hpos, abs_of_pos hpos]
    simp only [habs]
    split_ifs with hcond
    · simp [hcond]
    · simp [hcond]
  · intro pcks
    have hl : ∀ d ∈ pcks.filterMap (rt_wait speed clock_val c), 0 < d := by
      intro d hd
      obtain ⟨ts, _, hts⟩ := List.mem_filterMap.mp hd
      exact rt_wait_pos speed clock_val c ts d hts
    rw [rt_gate_fold_eq]
    cases hw : pcks.filterMap (rt_wait speed clock_val c) with
    | nil => simp
    | cons d rest =>
      rw [hw] at hl
      have hd : 0 < d := hl d (by simp)
      have hrest : ∀ x ∈ rest, 0 < x := fun x hx => hl x (by simp [hx])
      simp only [List.foldl_cons]
      have hupd : resched_update 0 d = d := by simp [resched_update]
      rw [hupd]
      obtain ⟨h1, h2, h3⟩ := resched_fold_pos rest d hd hrest
      refine ⟨by simp, ?_, ?_⟩
      · intro x hx
        rcases List.mem_cons.mp hx with hx | hx
        · exact hx ▸ h1
        · exact h2 x hx
      · intro _
        rcases h3 with h3 | h3
        · exact List.mem_cons.mpr (Or.inl h3)
        · exact List.mem_cons.mpr (Or.inr h3)

/-- Witness for C7 at a concrete input: anchor at wall clock 5 and media
time 100 µs, current wall clock 1000000, speed 2, packet at 100 µs. -/
theorem c7_rt_pacing_witness :
    (rt_gate 2 1000000 ⟨5, 100⟩ 100 0).1 = true ↔
      (Int.floor (((100 - (RtClock.mk 5 100).cts_us_at_init : Nat) : ℚ) / |(2 : ℚ)|)).toNat
        ≤ (1000000 - (RtClock.mk 5 100).sys_clock_at_init) + RT_PRECISION_US :=
  (c7_rt_pacing 2 1000000 ⟨5, 100⟩ (by norm_num) (by decide)).1 100 0 (by decide)

/-! ## Theorems: C2 (cross-range continuity) -/

/-- Helper: in a contiguous packet chain the head starts no later than any
member. -/
theorem chain_head_ts_le (a : SPck) (l : List SPck)
    (h : List.Chain' (fun p q => q.ts = p.ts + p.dur) (a :: l)) :
    ∀ b ∈ a :: l, a.ts ≤ b.ts := by
  induction l generalizing a with
  | nil =>
    intro b hb
    rw [List.mem_singleton] at hb
    exact hb ▸ le_refl a.ts
  | cons c l ih =>
    intro b hb
    rw [List.chain'_cons] at h
    rcases List.mem_cons.mp hb with hb | hb2
    · exact hb ▸ le_refl a.ts
    · have h2 := ih c h.2 b hb2
      omega

/-- Helper: the first output of a range whose first packet lies before the
cut is that packet's rewritten timestamp, which is the accumulated offset. -/
theorem process_ranges_head_out (d E cut : Nat) (cuts : List Nat)
    (b0 : SPck) (brest : List SPck) (hb : b0.ts + d < cut) :
    ∀ o ∈ (process_ranges d E (b0 :: brest) (cut :: cuts)).head?,
      o.head? = some
        ((((b0.ts + d : Nat) : Int) + (E : Int)
            - ((b0.ts + d + 1 - 1 : Nat) : Int)).toNat, b0.dur) := by
  intro o ho
  simp only [process_ranges, List.head?_cons, Option.mem_def, Option.some.injEq] at ho
  subst ho
  rw [List.takeWhile_cons, if_pos (decide_eq_true hb)]
  simp only [List.map_cons, List.head?_cons]

/-- Helper: the induction behind C2 — per-range outputs are nonempty and
non-decreasing, and consecutive ranges satisfy the continuity law, under
`ranges_ok` cuts. -/
theorem process_ranges_spec (d : Nat) (cuts : List Nat) :
    ∀ (queue : List SPck) (E : Nat),
    List.Chain' (fun p q => q.ts = p.ts + p.dur) queue →
    ranges_ok d queue cuts = true →
    (∀ o ∈ process_ranges d E queue cuts, o ≠ []) ∧
    (∀ o ∈ process_ranges d E queue cuts,
      List.Chain' (fun x y : Nat × Nat => x.1 ≤ y.1) o) ∧
    List.Chain' (fun o1 o2 => ∀ x ∈ o1.getLast?, ∀ y ∈ o2.head?, y.1 = x.1 + x.2)
      (process_ranges d E queue cuts) := by
  induction cuts with
  | nil =>
    intro queue E _ _
    cases queue <;> simp [process_ranges]
  | cons cut cuts ih =>
    intro queue E hchain hok
    cases queue with
    | nil => simp [ranges_ok] at hok
    | cons q0 qrest =>
      simp only [ranges_ok, Bool.and_eq_true] at hok
      obtain ⟨⟨hA, hB0⟩, hok2⟩ := hok
      have hAne : (q0 :: qrest).takeWhile (fun p => decide (p.ts + d < cut)) ≠ [] := by
        intro hnil
        rw [hnil] at hA
        simp at hA
      set A := (q0 :: qrest).takeWhile (fun p => decide (p.ts + d < cut)) with hAdef
      set B := (q0 :: qrest).dropWhile (fun p => decide (p.ts + d < cut)) with hBdef
      have hsplit : q0 :: qrest = A ++ B := (List.takeWhile_append_dropWhile _ _).symm
      have hchainAB := hsplit ▸ hchain
      rw [List.chain'_append] at hchainAB
      obtain ⟨hchainA, hchainB, hjunction⟩ := hchainAB
      -- head of A is q0 and satisfies the predicate
      have hheadA : ∃ Atail, A = q0 :: Atail ∧ q0.ts + d < cut := by
        rw [hAdef, List.takeWhile_cons]
        cases hq0 : decide (q0.ts + d < cut) with
        | false =>
          exfalso
          apply hAne
          rw [hAdef, List.takeWhile_cons, hq0]
          simp
        | true => exact ⟨_, rfl, of_decide_eq_true hq0⟩
      obtain ⟨Atail, hAcons, hq0cut⟩ := hheadA
      have ihB := ih B (E + ((cut + 1) - 1) - (q0.ts + d + 1 - 1)) hchainB hok2
      obtain ⟨ih1, ih2, ih3⟩ := ihB
      have hunfold : process_ranges d E (q0 :: qrest) (cut :: cuts)
          = (A.map (fun p =>
              ((((p.ts + d : Nat) : Int) + (E : Int)
                  - ((q0.ts + d + 1 - 1 : Nat) : Int)).toNat, p.dur)))
            :: process_ranges d (E + ((cut + 1) - 1) - (q0.ts + d + 1 - 1)) B cuts := by
        simp only [process_ranges]
      rw [hunfold]
      refine ⟨?_, ?_, ?_⟩
      · intro o ho
        rcases List.mem_cons.mp ho with rfl | ho2
        · simp [hAcons]
        · exact ih1 o ho2
      · intro o ho
        rcases List.mem_cons.mp ho with rfl | ho2
        · rw [List.chain'_map]
          refine hchainA.imp ?_
          intro a b hab
          apply Int.toNat_le_toNat
          omega
        · exact ih2 o ho2
      · refine List.Chain'.cons' ih3 ?_
        intro y0 hy0
        -- the next range exists: B and the remaining cuts are both non-nil
        cases cuts with
        | nil => simp [process_ranges] at hy0
        | cons cut2 cuts2 =>
          cases hBc : B with
          | nil => rw [hBc] at hy0; simp [process_ranges] at hy0
          | cons b0 brest =>
            -- b0 starts exactly at the cut
            have hb0cut : b0.ts + d = cut := by
              rw [hBc] at hB0
              simp only [List.head?_cons, Option.all_some] at hB0
              exact of_decide_eq_true hB0
            -- b0 continues the last packet of A
            have hlastA : A.getLast? = some (A.getLast hAne) :=
              List.getLast?_eq_getLast A hAne
            have hstep : b0.ts = (A.getLast hAne).ts + (A.getLast hAne).dur := by
              apply hjunction
              · exact hlastA
              · rw [hBc]; rfl
            -- q0 starts no later than the last packet of A
            have hq0le : q0.ts ≤ (A.getLast hAne).ts := by
              have hch := chain_head_ts_le q0 Atail (hAcons ▸ hchainA)
              apply hch
              rw [← hAcons]
              exact List.getLast_mem hAne
            -- the first packet of the next range lies before its cut
            have hb0cut2 : b0.ts + d < cut2 := by
              simp only [ranges_ok, Bool.and_eq_true] at hok2
              obtain ⟨⟨hA2, _⟩, _⟩ := hok2
              by_contra hge
              rw [hBc, List.takeWhile_cons, if_neg] at hA2
              · simp at hA2
              · simp [hge]
            have hout := process_ranges_head_out d
              (E + ((cut + 1) - 1) - (q0.ts + d + 1 - 1)) cut2 cuts2 b0 brest hb0cut2
              y0 (hBc ▸ hy0)
            -- the continuity equation
            intro x hx y hy
            rw [List.getLast?_map, hlastA] at hx
            simp only [Option.map_some', Option.mem_def, Option.some.injEq] at hx
            subst hx
            rw [hout] at hy
            simp only [Option.mem_def, Option.some.injEq] at hy
            subst hy
            simp only
            omega

/-- C2 counterexample: when a cut point decided across streams falls
strictly inside a packet's duration on this stream (queue `[(ts 0, dur 10),
(ts 10, dur 10)]`, cut 5 — e.g. another stream's sync point at 5), the
first output timestamp of the next range is 5, not `0 + 10`: the
continuity law "first timestamp of range N+1 = last timestamp + duration
of range N" fails (the outputs overlap, though they stay non-decreasing). -/
theorem c2_counterexample :
    process_ranges 0 0 [⟨0, 10⟩, ⟨10, 10⟩] [5, 25] = [[(0, 10)], [(5, 10)]] ∧
    (5 : Nat) ≠ 0 + 10 := by decide

/-- C2 (amended): for a stream whose queued packets are contiguous
(`next.ts = ts + dur`) and whose accepted cut points all fall on packet
boundaries of this stream (`ranges_ok`), the rewritten output timestamps
are non-decreasing across all concatenated ranges and contiguous: the
first output timestamp of each range equals the previous range's last
output timestamp plus that packet's duration (`ts_at_range_end` advancing
by `(range_end_reached_ts - 1) - (ts_at_range_start_plus_one - 1)` at each
transition). -/
theorem c2_cross_range_continuity (d E : Nat) (queue : List SPck) (cuts : List Nat)
    (hchain : List.Chain' (fun p q => q.ts = p.ts + p.dur) queue)
    (hok : ranges_ok d queue cuts = true) :
    (∀ o ∈ process_ranges d E queue cuts, o ≠ []) ∧
    List.Chain' (fun o1 o2 => ∀ x ∈ o1.getLast?, ∀ y ∈ o2.head?, y.1 = x.1 + x.2)
      (process_ranges d E queue cuts) ∧
    List.Chain' (fun x y : Nat × Nat => x.1 ≤ y.1)
      (process_ranges d E queue cuts).flatten := by
  obtain ⟨h1, h2, h3⟩ := process_ranges_spec d cuts queue E hchain hok
  refine ⟨h1, h3, ?_⟩
  rw [List.chain'_flatten (fun hmem => (h1 [] hmem) rfl)]
  refine ⟨h2, ?_⟩
  refine h3.imp ?_
  intro o1 o2 hrel x hx y hy
  have := hrel x hx y hy
  omega

/-- Witness for the amended C2 at a concrete input: two contiguous packets
cut exactly at the boundary `ts = 4`. -/
theorem c2_cross_range_continuity_witness :
    (∀ o ∈ process_ranges 0 0 [⟨0, 4⟩, ⟨4, 6⟩] [4, 12], o ≠ []) ∧
    List.Chain' (fun o1 o2 => ∀ x ∈ o1.getLast?, ∀ y ∈ o2.head?, y.1 = x.1 + x.2)
      (process_ranges 0 0 [⟨0, 4⟩, ⟨4, 6⟩] [4, 12]) ∧
    List.Chain' (fun x y : Nat × Nat => x.1 ≤ y.1)
      (process_ranges 0 0 [⟨0, 4⟩, ⟨4, 6⟩] [4, 12]).flatten :=
  c2_cross_range_continuity 0 0 [⟨0, 4⟩, ⟨4, 6⟩] [4, 12]
    (List.chain'_pair.mpr (by decide)) (by decide)

/-! ## Theorems: C1 (cut-point selection) -/

/-- Helper: transitivity of the cross-multiplied rational order on `Nat`
pairs (`a/b ≤ c/dd` and `c/dd ≤ e/f` give `a/b ≤ e/f` when `dd > 0`). -/
theorem rat_le_aux (a b c dd e f : Nat) (h1 : a * dd ≤ c * b) (h2 : c * f ≤ e * dd)
    (hd : 0 < dd) : a * f ≤ e * b := by
  have h3 : a * dd * f ≤ c * b * f := Nat.mul_le_mul_right f h1
  have h4 : c * f * b ≤ e * dd * b := Nat.mul_le_mul_right b h2
  have h5 : a * f * dd ≤ e * b * dd := by
    calc a * f * dd = a * dd * f := by ring
    _ ≤ c * b * f := h3
    _ = c * f * b := by ring
    _ ≤ e * dd * b := h4
    _ = e * b * dd := by ring
  exact Nat.le_of_mul_le_mul_right h5 hd

/-- Helper: the invariant of the stream loop when no stream is at end of
stream and every sparse-sync stream holds a candidate — the flags are
untouched, and the sparse pool accumulator is a lower bound (in the
cross-multiplied rational order) of the incoming accumulator and of every
sparse-sync stream's candidate. -/
theorem gop_scan_no_eos_spec (raw : Bool) (gd : Nat) :
    ∀ (l : List RStream) (acc : GopAcc),
    (∀ st ∈ l, st.in_eos = false) →
    (∀ st ∈ l, 0 < st.timescale) →
    (∀ st ∈ l, st.all_saps = false → stream_last_sap raw gd st ≠ 0) →
    (acc.min_ts ≠ 0 → 0 < acc.min_timescale) →
    ((gop_scan raw gd l acc).nb_eos = acc.nb_eos ∧
     (gop_scan raw gd l acc).has_empty = acc.has_empty ∧
     (gop_scan raw gd l acc).flush_all = acc.flush_all ∧
     (gop_scan raw gd l acc).wait_for_sap = acc.wait_for_sap) ∧
    ((gop_scan raw gd l acc).min_ts ≠ 0 → 0 < (gop_scan raw gd l acc).min_timescale) ∧
    (acc.min_ts ≠ 0 → (gop_scan raw gd l acc).min_ts ≠ 0) ∧
    ((∃ st ∈ l, st.all_saps = false) → (gop_scan raw gd l acc).min_ts ≠ 0) ∧
    (acc.min_ts ≠ 0 →
      (gop_scan raw gd l acc).min_ts * acc.min_timescale
        ≤ acc.min_ts * (gop_scan raw gd l acc).min_timescale) ∧
    (∀ st ∈ l, st.all_saps = false →
      (gop_scan raw gd l acc).min_ts * st.timescale
        ≤ stream_last_sap raw gd st * (gop_scan raw gd l acc).min_timescale) := by
  intro l
  induction l with
  | nil =>
    intro acc h1 h2 h3 hacc
    refine ⟨⟨rfl, rfl, rfl, rfl⟩, hacc, fun h => h, ?_, fun _ => le_refl _, ?_⟩
    · rintro ⟨st, hst, _⟩
      exact absurd hst (List.not_mem_nil st)
    · intro st hst
      exact absurd hst (List.not_mem_nil st)
  | cons st rest ih =>
    intro acc h1 h2 h3 hacc
    have hin : st.in_eos = false := h1 st (List.mem_cons_self st rest)
    have hts : 0 < st.timescale := h2 st (List.mem_cons_self st rest)
    have h1r : ∀ s ∈ rest, s.in_eos = false := fun s hs => h1 s (List.mem_cons_of_mem st hs)
    have h2r : ∀ s ∈ rest, 0 < s.timescale := fun s hs => h2 s (List.mem_cons_of_mem st hs)
    have h3r : ∀ s ∈ rest, s.all_saps = false → stream_last_sap raw gd s ≠ 0 :=
      fun s hs => h3 s (List.mem_cons_of_mem st hs)
    have hunf : gop_scan raw gd (st :: rest) acc
        = gop_scan raw gd rest (gop_scan_step raw gd st acc) := by
      simp only [gop_scan]
    rw [hunf]
    by_cases hsap : st.all_saps = true
    · -- all-sync stream: only the all-sync pool changes
      have hstep : gop_scan_step raw gd st acc =
          (if acc.min_ts_a = 0 ∨ stream_last_sap raw gd st * acc.min_timescale_a
              < acc.min_ts_a * st.timescale
           then { acc with min_ts_a := stream_last_sap raw gd st,
                           min_timescale_a := st.timescale }
           else acc) := by
        unfold gop_scan_step
        simp [hin, hsap]
      have heqs : (gop_scan_step raw gd st acc).min_ts = acc.min_ts
          ∧ (gop_scan_step raw gd st acc).min_timescale = acc.min_timescale
          ∧ (gop_scan_step raw gd st acc).nb_eos = acc.nb_eos
          ∧ (gop_scan_step raw gd st acc).has_empty = acc.has_empty
          ∧ (gop_scan_step raw gd st acc).flush_all = acc.flush_all
          ∧ (gop_scan_step raw gd st acc).wait_for_sap = acc.wait_for_sap := by
        rw [hstep]
        split_ifs <;> exact ⟨rfl, rfl, rfl, rfl, rfl, rfl⟩
      obtain ⟨e1, e2, e3, e4, e5, e6⟩ := heqs
      obtain ⟨⟨f1, f2, f3, f4⟩, c5, c6, c7, c8, c9⟩ :=
        ih (gop_scan_step raw gd st acc) h1r h2r h3r (by rw [e1, e2]; exact hacc)
      refine ⟨⟨?_, ?_, ?_, ?_⟩, c5, ?_, ?_, ?_, ?_⟩
      · rw [f1, e3]
      · rw [f2, e4]
      · rw [f3, e5]
      · rw [f4, e6]
      · intro h
        exact c6 (by rw [e1]; exact h)
      · rintro ⟨s, hs, hsapf⟩
        rcases List.mem_cons.mp hs with rfl | hs2
        · rw [hsap] at hsapf
          cases hsapf
        · exact c7 ⟨s, hs2, hsapf⟩
      · intro h
        have h8 := c8 (by rw [e1]; exact h)
        rw [e1, e2] at h8
        exact h8
      · intro s hs hsapf
        rcases List.mem_cons.mp hs with rfl | hs2
        · rw [hsap] at hsapf
          cases hsapf
        · exact c9 s hs2 hsapf
    · -- sparse-sync stream: the sparse pool takes the smaller candidate
      have hsapf : st.all_saps = false := by
        cases hx : st.all_saps
        · rfl
        · exact absurd hx hsap
      have hls : stream_last_sap raw gd st ≠ 0 :=
        h3 st (List.mem_cons_self st rest) hsapf
      have hstep : gop_scan_step raw gd st acc =
          (if acc.min_ts = 0 ∨ stream_last_sap raw gd st * acc.min_timescale
              < acc.min_ts * st.timescale
           then { acc with min_ts := stream_last_sap raw gd st,
                           min_timescale := st.timescale }
           else acc) := by
        unfold gop_scan_step
        simp [hin, hsapf, hls]
      by_cases hupd : acc.min_ts = 0 ∨ stream_last_sap raw gd st * acc.min_timescale
          < acc.min_ts * st.timescale
      · -- candidate taken
        rw [hstep, if_pos hupd]
        obtain ⟨⟨f1, f2, f3, f4⟩, c5, c6, c7, c8, c9⟩ :=
          ih { acc with min_ts := stream_last_sap raw gd st,
                        min_timescale := st.timescale } h1r h2r h3r (fun _ => hts)
        refine ⟨⟨f1, f2, f3, f4⟩, c5, ?_, ?_, ?_, ?_⟩
        · intro _
          exact c6 hls
        · intro _
          exact c6 hls
        · intro hm
          have hGls := c8 hls
          rcases hupd with h0 | hlt
          · exact absurd h0 hm
          · exact rat_le_aux _ _ _ _ _ _ hGls (le_of_lt hlt) hts
        · intro s hs hsapf2
          rcases List.mem_cons.mp hs with rfl | hs2
          · exact c8 hls
          · exact c9 s hs2 hsapf2
      · -- candidate kept: the accumulator was already at most the candidate
        rw [hstep, if_neg hupd]
        push_neg at hupd
        obtain ⟨hm0, hge⟩ := hupd
        obtain ⟨⟨f1, f2, f3, f4⟩, c5, c6, c7, c8, c9⟩ := ih acc h1r h2r h3r hacc
        refine ⟨⟨f1, f2, f3, f4⟩, c5, c6, ?_, c8, ?_⟩
        · intro _
          exact c6 hm0
        · intro s hs hsapf2
          rcases List.mem_cons.mp hs with rfl | hs2
          · have hGacc := c8 hm0
            exact rat_le_aux _ _ _ _ _ _ hGacc hge (hacc hm0)
          · exact c9 s hs2 hsapf2

/-- C1 counterexample: with an all-sync stream (pool candidate 5/1) and a
sparse-sync stream (pool candidate 10/1), the accepted cut point is 10/1:
the candidate of the all-sync pool is ignored, and the accepted timestamp
is NOT less than or equal to that stream's candidate, so "the minimum over
both candidate pools" fails. -/
theorem c1_counterexample :
    gop_split_select false 0 [c1_stream_a, c1_stream_b] = some (10, 1) ∧
    c1_stream_a.all_saps = true ∧
    stream_last_sap false 0 c1_stream_a = 5 ∧
    ¬ (10 * c1_stream_a.timescale ≤ 5 * 1) := by decide

/-- C1 (amended): when no stream is at end of stream, every sparse-sync
stream holds a candidate and at least one sparse-sync stream exists, the
accepted cut point is the minimum — under cross-multiplied rational
comparison — over the sparse-sync pool alone: it is less than or equal to
every sparse-sync stream's candidate (the all-sync pool is consulted only
when the sparse pool is empty, and its candidates may lie strictly below
the accepted cut point). -/
theorem c1_min_over_hard_pool (raw : Bool) (gd : Nat) (streams : List RStream)
    (heos : ∀ st ∈ streams, st.in_eos = false)
    (htsc : ∀ st ∈ streams, 0 < st.timescale)
    (hcands : ∀ st ∈ streams, st.all_saps = false → stream_last_sap raw gd st ≠ 0)
    (hhard : ∃ st ∈ streams, st.all_saps = false) :
    ∃ m sc, gop_split_select raw gd streams = some (m, sc) ∧ 0 < sc ∧
      ∀ st ∈ streams, st.all_saps = false →
        m * st.timescale ≤ stream_last_sap raw gd st * sc := by
  obtain ⟨⟨f1, f2, f3, f4⟩, c5, c6, c7, c8, c9⟩ :=
    gop_scan_no_eos_spec raw gd streams ⟨0, 0, 0, 0, 0, false, false, false⟩
      heos htsc hcands (fun h => absurd rfl h)
  set G := gop_scan raw gd streams ⟨0, 0, 0, 0, 0, false, false, false⟩ with hG
  have hm : G.min_ts ≠ 0 := c7 hhard
  refine ⟨G.min_ts, G.min_timescale, ?_, c5 hm, c9⟩
  unfold gop_split_select
  rw [← hG]
  dsimp only
  rw [if_neg (by simp [f3, f1])]
  dsimp only
  rw [if_neg hm]

/-- Witness for the amended C1 at a concrete input. -/
theorem c1_min_over_hard_pool_witness :
    ∃ m sc, gop_split_select false 0 [c1_stream_a, c1_stream_b] = some (m, sc) ∧ 0 < sc ∧
      ∀ st ∈ [c1_stream_a, c1_stream_b], st.all_saps = false →
        m * st.timescale ≤ stream_last_sap false 0 st * sc :=
  c1_min_over_hard_pool false 0 [c1_stream_a, c1_stream_b]
    (by decide) (by decide) (by decide) ⟨c1_stream_b, by decide, by decide⟩

end Reframer
